import Mathlib

/-!
# Verification of the dynamic grid trading engine

Shallow embedding of the order-management core of the `dinamic_grid`
repository.  Prices and amounts are modelled as exact rationals (the
source computes them in Python floats; every concrete value checked here
is far from a rounding tie, so exact rational arithmetic agrees with the
float computation).  Python's `round` is banker's rounding (half to
even), modelled by `pyRound`.  Stateful code is modelled by explicit
state passing; the venue (exchange) is modelled by the list of open
orders it holds, with `cancel_order` removing an order by id and
`create_order` appending an order with a fresh id.
-/

namespace DinamicGrid

/-- Round-half-to-even on rationals: the integer nearest to `x`, ties to
the even neighbour.  This is Python 3 `round` semantics. -/
def roundHalfEven (x : ℚ) : ℤ :=
  let f := ⌊x⌋
  let r := x - f
  if r < 1/2 then f
  else if 1/2 < r then f + 1
  else if f % 2 = 0 then f else f + 1

/-- Python `round(x, d)` for nonnegative `d`, on exact rationals. -/
def pyRound (x : ℚ) (d : ℕ) : ℚ :=
  (roundHalfEven (x * 10 ^ d) : ℚ) / 10 ^ d

inductive Side where
  | buy
  | sell
deriving DecidableEq, Repr

inductive OrdStatus where
  | opened
  | partFilled
  | filled
  | closed
  | canceled
  | expired
  | rejected
deriving DecidableEq, Repr

/-- An order-update event as observed from the gateway
(`watch_orders`).  `id = none` models a falsy `order.get('id')` and
`price = none` a missing/`None` price field. -/
structure OrderEvt where
  id : Option ℕ
  side : Side
  price : Option ℚ
  amount : ℚ
  filled : ℚ
  status : OrdStatus
deriving DecidableEq, Repr

/-- The mutable fill counters held by the order managers. -/
structure FillState where
  total_sells_filled : ℕ
  total_buys_filled : ℕ
  match_profit : ℚ
deriving DecidableEq, Repr

/-- Initial state: both counters and the profit accumulator start at 0. -/
def initState : FillState := ⟨0, 0, 0⟩

/-- A `create_order` request issued by the engine (side, amount, price),
exactly the arguments the source passes to the exchange. -/
structure PostReq where
  side : Side
  amount : ℚ
  price : ℚ
deriving DecidableEq, Repr

/-- Configuration shared by all variants (`percentage_spread`, `amount`,
`num_orders`, `price_format`, `amount_format`, `contract_size`). -/
structure Config where
  percentage_spread : ℚ
  amount : ℚ
  num_orders : ℕ
  price_format : ℕ
  amount_format : ℕ
  contract_size : ℚ

/-- The terminal-fill test of `bot_crypto` and `inverse` `process_order`:
`status in ('filled', 'closed') and filled == amount and amount > 0`. -/
def terminalFill (o : OrderEvt) : Prop :=
  (o.status = OrdStatus.filled ∨ o.status = OrdStatus.closed)
    ∧ o.filled = o.amount ∧ 0 < o.amount

instance (o : OrderEvt) : Decidable (terminalFill o) := by
  unfold terminalFill; infer_instance

/-- `bot/helpers.py` `format_price`. -/
def format_price (price : ℚ) (decimals : ℕ) : ℚ := pyRound price decimals

/-- `bot/helpers.py` `format_quantity`. -/
def format_quantity (q : ℚ) (decimals : ℕ) : ℚ := pyRound q decimals

/-- `bot/helpers.py` `calculate_order_prices`:
`[format_price(price * (1 - spread) ** i, decimals) for i in range(num_orders)]`. -/
def calculate_order_prices (price spread : ℚ) (num_orders decimals : ℕ) : List ℚ :=
  (List.range num_orders).map (fun i => format_price (price * (1 - spread) ^ i) decimals)

/-- Modelled from the spec: `bot_crypto/helpers.py` and
`inverse/helpers.py` are not under `src/`; per spec §4.3 sell rungs
cascade geometrically upward from the reference price, mirroring the
shape of the `bot/helpers.py` `calculate_order_prices` that is in
`src/`. -/
def calculate_order_prices_sell (price spread : ℚ) (n decimals : ℕ) : List ℚ :=
  (List.range n).map (fun i => pyRound (price * (1 + spread) ^ i) decimals)

/-- Modelled from the spec: `bot_crypto/helpers.py` and
`inverse/helpers.py` are not under `src/`; per spec §4.3 buy rungs
cascade geometrically downward from the reference price. -/
def calculate_order_prices_buy (price spread : ℚ) (n decimals : ℕ) : List ℚ :=
  (List.range n).map (fun i => pyRound (price * (1 - spread) ^ i) decimals)

namespace Bot

/-- `bot/order_manager.py` `process_order` (lines 42-59).  The only
fill test is `order['filled'] == order['amount']`; the counters are
incremented before the price is read, so a `None` price (which raises
inside the `try` and is swallowed) leaves the increment in place and
skips only the posting.  The subsequent `rebalance_grid` call is
modelled separately. -/
def process_order (cfg : Config) (s : FillState) (o : OrderEvt) : FillState × List PostReq :=
  if o.filled = o.amount then
    let s' := if o.side = Side.buy then
        { s with total_buys_filled := s.total_buys_filled + 1 }
      else
        { s with total_sells_filled := s.total_sells_filled + 1 }
    match o.price with
    | some p =>
        let side_counter := if o.side = Side.buy then Side.sell else Side.buy
        let mult := if side_counter = Side.sell then 1 + cfg.percentage_spread
          else 1 - cfg.percentage_spread
        (s', [⟨side_counter, o.amount, p * mult⟩])
    | none => (s', [])
  else (s, [])

/-- `bot/order_manager.py` `place_orders` (lines 76-88): posts buys at
`calculate_order_prices` rungs with `amount / p / contract_size`
contracts each; the loop stops after `num_orders` posts and a zero
price would abort it with a caught `ZeroDivisionError`. -/
def place_orders (cfg : Config) (price : ℚ) : List PostReq :=
  let prices := calculate_order_prices price cfg.percentage_spread cfg.num_orders cfg.price_format
  ((prices.take cfg.num_orders).takeWhile (fun p => decide (p ≠ 0))).map
    (fun p => ⟨Side.buy, format_quantity (cfg.amount / p / cfg.contract_size) cfg.amount_format, p⟩)

end Bot

namespace BotCrypto

/-- `bot_crypto/order_manager.py` `process_order` (lines 53-81):
the terminal-fill test is `status in ('filled','closed') and
filled == amount and amount > 0`; a falsy id returns early; the side
counter is incremented before the price is examined, and a missing
price skips only the counter posting. -/
def process_order (cfg : Config) (s : FillState) (o : OrderEvt) : FillState × List PostReq :=
  match o.id with
  | none => (s, [])
  | some _ =>
    if terminalFill o then
      if o.side = Side.sell then
        let s' := { s with total_sells_filled := s.total_sells_filled + 1 }
        match o.price with
        | some p => (s', [⟨Side.buy, o.filled, p * (1 - cfg.percentage_spread)⟩])
        | none => (s', [])
      else
        let s' := { s with total_buys_filled := s.total_buys_filled + 1,
                           match_profit := s.match_profit + cfg.amount * cfg.percentage_spread }
        match o.price with
        | some p => (s', [⟨Side.sell, o.filled, p * (1 + cfg.percentage_spread)⟩])
        | none => (s', [])
    else (s, [])

end BotCrypto

namespace Inverse

/-- `inverse/order_manager.py` `OrderManagerBearish.process_order`
(lines 55-82): a fully filled `buy` bumps `total_sells_filled` and
posts a `sell` at `price * (1 - spread)`; a fully filled `sell` bumps
`total_buys_filled`, accrues `amount * spread` of match profit and
posts a `buy` at `price * (1 + spread)`. -/
def process_order (cfg : Config) (s : FillState) (o : OrderEvt) : FillState × List PostReq :=
  match o.id with
  | none => (s, [])
  | some _ =>
    if terminalFill o then
      if o.side = Side.buy then
        let s' := { s with total_sells_filled := s.total_sells_filled + 1 }
        match o.price with
        | some p => (s', [⟨Side.sell, o.filled, p * (1 - cfg.percentage_spread)⟩])
        | none => (s', [])
      else
        let s' := { s with total_buys_filled := s.total_buys_filled + 1,
                           match_profit := s.match_profit + cfg.amount * cfg.percentage_spread }
        match o.price with
        | some p => (s', [⟨Side.buy, o.filled, p * (1 + cfg.percentage_spread)⟩])
        | none => (s', [])
    else (s, [])

end Inverse

/-- The S1 seeding configuration of the spec: long bias, 0.5% spread,
1000 notional, 10 rungs, 2-decimal prices and amounts, 0.01 contracts. -/
def cfgS1 : Config :=
  { percentage_spread := 1/200, amount := 1000, num_orders := 10,
    price_format := 2, amount_format := 2, contract_size := 1/100 }

/-- The ladder the code actually produces for S1. -/
def s1Ladder : List ℚ :=
  [100, 99.5, 99, 98.51, 98.01, 97.52, 97.04, 96.55, 96.07, 95.59]

/-- Folding a sequence of order-update events through the
`bot_crypto` fill handler, keeping only the engine state. -/
def BotCrypto.runFills (cfg : Config) (s : FillState) (evs : List OrderEvt) : FillState :=
  evs.foldl (fun st o => (BotCrypto.process_order cfg st o).1) s

/-- Folding a sequence of order-update events through the
`inverse` fill handler, keeping only the engine state. -/
def Inverse.runFills (cfg : Config) (s : FillState) (evs : List OrderEvt) : FillState :=
  evs.foldl (fun st o => (Inverse.process_order cfg st o).1) s

end DinamicGrid

namespace DinamicGrid

/-! ## Claim C5 — seeding ladder -/

unseal Rat.add Rat.mul Rat.inv Rat.sub Rat.ofScientific in
/-- Claim C5 is false as stated: with the S1 configuration and first mid
100.00, the prices `bot` `place_orders` posts are
`round(100 * 0.995^i, 2)`, which is 98.01 at `i = 4` (and 97.52 at
`i = 5`, 96.55 at `i = 7`), not the 98.02 / 97.53 / 96.56 the claim
lists. -/
theorem claim_C5_counterexample :
    (Bot.place_orders cfgS1 100).map (·.price) ≠
      [100, 99.5, 99, 98.51, 98.02, 97.53, 97.04, 96.56, 96.07, 95.59] := by
  decide

unseal Rat.add Rat.mul Rat.inv Rat.sub Rat.ofScientific in
/-- Claim C5 (amended): seeding with the S1 configuration at first mid
100.00 posts exactly 10 buy orders at prices `round(100 * 0.995^i, 2)`
for `i = 0..9`, namely 100.00, 99.50, 99.00, 98.51, 98.01, 97.52,
97.04, 96.55, 96.07, 95.59, each with amount
`round(1000 / price / 0.01, 2)`. -/
theorem claim_C5_amended :
    (Bot.place_orders cfgS1 100).map (·.price) = s1Ladder
    ∧ (Bot.place_orders cfgS1 100).map (·.price)
        = (List.range 10).map (fun i => pyRound (100 * (1 - 1/200) ^ i) 2)
    ∧ (Bot.place_orders cfgS1 100).map (·.amount)
        = s1Ladder.map (fun p => pyRound (1000 / p / (1/100)) 2)
    ∧ (Bot.place_orders cfgS1 100).map (·.side) = List.replicate 10 Side.buy := by
  refine ⟨by decide, by decide, by decide, by decide⟩

/-! ## Claim C2 — terminal-fill trigger -/

unseal Rat.add Rat.mul Rat.inv Rat.sub in
/-- Claim C2 is false as stated for the `bot` variant: an order-update
event with status `canceled` and `filled == amount` is not ignored —
`bot` `process_order` tests only `filled == amount`, so it increments a
fill counter and posts a counter order. -/
theorem claim_C2_counterexample :
    (Bot.process_order cfgS1 initState
        ⟨some 1, Side.buy, some 100, 1, 1, OrdStatus.canceled⟩).1 ≠ initState
    ∧ (Bot.process_order cfgS1 initState
        ⟨some 1, Side.buy, some 100, 1, 1, OrdStatus.canceled⟩).2 ≠ [] := by
  refine ⟨by decide, by decide⟩

/-- The `bot_crypto` fill branch bumps exactly one of the two fill
counters whenever the id is present and the terminal-fill test passes. -/
lemma BotCrypto.processOrder_counter_sum_crypto (cfg : Config) (s : FillState) (o : OrderEvt)
    (hid : o.id ≠ none) (ht : terminalFill o) :
    (BotCrypto.process_order cfg s o).1.total_sells_filled
      + (BotCrypto.process_order cfg s o).1.total_buys_filled
      = s.total_sells_filled + s.total_buys_filled + 1 := by
  obtain ⟨id, side, price, amount, filled, status⟩ := o
  cases id with
  | none => exact absurd rfl hid
  | some i =>
    simp only [BotCrypto.process_order]
    rw [if_pos ht]
    cases side <;> cases price <;> simp <;> omega

/-- When the id is falsy or the terminal-fill test fails, the
`bot_crypto` fill handler is a no-op. -/
lemma BotCrypto.processOrder_skip_crypto (cfg : Config) (s : FillState) (o : OrderEvt)
    (h : ¬(o.id ≠ none ∧ terminalFill o)) :
    BotCrypto.process_order cfg s o = (s, []) := by
  obtain ⟨id, side, price, amount, filled, status⟩ := o
  cases id with
  | none => rfl
  | some i =>
    have ht : ¬ terminalFill ⟨some i, side, price, amount, filled, status⟩ := by
      intro hc
      exact h ⟨by simp, hc⟩
    simp only [BotCrypto.process_order]
    rw [if_neg ht]

/-- The `bot` fill branch bumps exactly one of the two fill counters
whenever `filled == amount`. -/
lemma Bot.processOrder_counter_sum_bot (cfg : Config) (s : FillState) (o : OrderEvt)
    (h : o.filled = o.amount) :
    (Bot.process_order cfg s o).1.total_sells_filled
      + (Bot.process_order cfg s o).1.total_buys_filled
      = s.total_sells_filled + s.total_buys_filled + 1 := by
  obtain ⟨id, side, price, amount, filled, status⟩ := o
  simp only [Bot.process_order]
  rw [if_pos h]
  cases side <;> cases price <;> simp <;> omega

/-- When `filled ≠ amount`, the `bot` fill handler is a no-op. -/
lemma Bot.processOrder_skip_bot (cfg : Config) (s : FillState) (o : OrderEvt)
    (h : o.filled ≠ o.amount) :
    Bot.process_order cfg s o = (s, []) := by
  simp only [Bot.process_order, if_neg h]

/-- Claim C2 (amended): in the `bot_crypto` variant the fill branch runs
(i.e. the state or the posted-order list changes) exactly when the event
has a non-null id, `status ∈ {filled, closed}` and `filled == amount > 0`;
the `bot` variant runs its fill branch exactly when `filled == amount`,
with no status or positivity check. -/
theorem claim_C2_amended (cfg : Config) (s : FillState) (o : OrderEvt) :
    (BotCrypto.process_order cfg s o = (s, []) ↔ ¬(o.id ≠ none ∧ terminalFill o))
    ∧ (Bot.process_order cfg s o = (s, []) ↔ o.filled ≠ o.amount) := by
  constructor
  · constructor
    · intro he hc
      have := BotCrypto.processOrder_counter_sum_crypto cfg s o hc.1 hc.2
      rw [he] at this
      dsimp only at this
      omega
    · exact BotCrypto.processOrder_skip_crypto cfg s o
  · constructor
    · intro he hc
      have := Bot.processOrder_counter_sum_bot cfg s o hc
      rw [he] at this
      dsimp only at this
      omega
    · exact Bot.processOrder_skip_bot cfg s o

/-- Witness for C2 (amended), at a partial-fill event that both
variants leave untouched. -/
theorem claim_C2_witness :
    BotCrypto.process_order cfgS1 initState
      ⟨some 1, Side.buy, some 100, 2, 1, OrdStatus.opened⟩ = (initState, []) :=
  (claim_C2_amended cfgS1 initState
      ⟨some 1, Side.buy, some 100, 2, 1, OrdStatus.opened⟩).1.mpr (by decide)

/-! ## Claim C3 — counter-order price -/

unseal Rat.add Rat.mul Rat.inv Rat.sub Rat.ofScientific in
/-- Claim C3 is false as stated: the counter order the `bot_crypto`
fill handler posts for a primary (sell) fill at 100.50 with spread
0.005 carries the raw price `100.50 * 0.995 = 99.9975`; no
`round(..., price_decimals)` is applied (which would give 100.00). -/
theorem claim_C3_counterexample :
    ((BotCrypto.process_order cfgS1 initState
        ⟨some 1, Side.sell, some 100.5, 1, 1, OrdStatus.filled⟩).2.map (·.price)
      = [(99.9975 : ℚ)])
    ∧ (99.9975 : ℚ) ≠ pyRound (100.5 * (1 - (1/200 : ℚ))) 2 := by
  refine ⟨by decide, by decide⟩

/-- Claim C3 (amended): the counter order posted in response to a
terminal primary-side fill at price `p` carries exactly the price
`p * (1 + sign * spread)` (sign = +1 in the long-bias `bot`, −1 in the
short-bias `bot_crypto`), with no rounding applied. -/
theorem claim_C3_amended (cfg : Config) (s : FillState) (o : OrderEvt) (p : ℚ)
    (hp : o.price = some p) :
    (o.id ≠ none → terminalFill o → o.side = Side.sell →
      (BotCrypto.process_order cfg s o).2
        = [⟨Side.buy, o.filled, p * (1 - cfg.percentage_spread)⟩])
    ∧ (o.filled = o.amount → o.side = Side.buy →
      (Bot.process_order cfg s o).2
        = [⟨Side.sell, o.amount, p * (1 + cfg.percentage_spread)⟩]) := by
  obtain ⟨id, side, price, amount, filled, status⟩ := o
  subst hp
  constructor
  · intro hid ht hs
    cases id with
    | none => exact absurd rfl hid
    | some i =>
      subst hs
      simp only [BotCrypto.process_order]
      rw [if_pos ht]
      simp
  · intro hf hs
    subst hs
    simp only [Bot.process_order]
    rw [if_pos hf]
    simp

unseal Rat.add Rat.mul Rat.inv Rat.sub Rat.ofScientific in
/-- Witness for C3 (amended): the S3 sell fill at 100.50 produces a buy
at the unrounded 99.9975. -/
theorem claim_C3_witness :
    (BotCrypto.process_order cfgS1 initState
        ⟨some 1, Side.sell, some 100.5, 1, 1, OrdStatus.filled⟩).2
      = [⟨Side.buy, 1, 100.5 * (1 - cfgS1.percentage_spread)⟩] :=
  (claim_C3_amended cfgS1 initState
      ⟨some 1, Side.sell, some 100.5, 1, 1, OrdStatus.filled⟩ 100.5 rfl).1
    (by decide) (by decide) rfl

/-! ## Claim C8 — fill event with missing price -/

/-- Claim C8 is false as stated: a terminal sell fill whose price field
is `None` posts no counter order, but the engine state is *not* left
unchanged — `total_sells_filled` is incremented before the price is
examined. -/
theorem claim_C8_counterexample :
    (BotCrypto.process_order cfgS1 initState
        ⟨some 1, Side.sell, none, 1, 1, OrdStatus.filled⟩).1 ≠ initState
    ∧ (BotCrypto.process_order cfgS1 initState
        ⟨some 1, Side.sell, none, 1, 1, OrdStatus.filled⟩).2 = [] := by
  refine ⟨by decide, by decide⟩

/-- Claim C8 (amended): for every terminal fill event whose price field
is missing, the `bot_crypto` fill handler posts no counter order, but
the side's fill counter is still incremented (the skip covers only the
posting). -/
theorem claim_C8_amended (cfg : Config) (s : FillState) (o : OrderEvt)
    (hid : o.id ≠ none) (ht : terminalFill o) (hp : o.price = none) :
    (BotCrypto.process_order cfg s o).2 = []
    ∧ (BotCrypto.process_order cfg s o).1.total_sells_filled
        + (BotCrypto.process_order cfg s o).1.total_buys_filled
      = s.total_sells_filled + s.total_buys_filled + 1 := by
  refine ⟨?_, BotCrypto.processOrder_counter_sum_crypto cfg s o hid ht⟩
  obtain ⟨id, side, price, amount, filled, status⟩ := o
  cases id with
  | none => exact absurd rfl hid
  | some i =>
    subst hp
    simp only [BotCrypto.process_order]
    rw [if_pos ht]
    cases side <;> simp

/-- Witness for C8 (amended) at a concrete missing-price sell fill. -/
theorem claim_C8_witness :
    (BotCrypto.process_order cfgS1 initState
        ⟨some 1, Side.sell, none, 1, 1, OrdStatus.filled⟩).2 = []
    ∧ (BotCrypto.process_order cfgS1 initState
        ⟨some 1, Side.sell, none, 1, 1, OrdStatus.filled⟩).1.total_sells_filled
        + (BotCrypto.process_order cfgS1 initState
            ⟨some 1, Side.sell, none, 1, 1, OrdStatus.filled⟩).1.total_buys_filled
      = initState.total_sells_filled + initState.total_buys_filled + 1 :=
  claim_C8_amended cfgS1 initState
    ⟨some 1, Side.sell, none, 1, 1, OrdStatus.filled⟩ (by decide) (by decide) rfl

/-! ## Claim C10 — side-to-counter mapping of the inverse variant -/

/-- Claim C10: in the `inverse` (bearish) variant a terminal fully
filled `buy` bumps `total_sells_filled` (not `total_buys_filled`) and
posts a `sell` at `price * (1 - spread)`; a terminal fully filled
`sell` bumps `total_buys_filled`, accrues `notional * spread` of match
profit and posts a `buy` at `price * (1 + spread)` — the opposite
mapping from `bot_crypto`, where a `sell` fill bumps
`total_sells_filled` and posts a `buy` below. -/
theorem claim_C10 (cfg : Config) (s : FillState) (o : OrderEvt) (p : ℚ)
    (hid : o.id ≠ none) (ht : terminalFill o) (hp : o.price = some p) :
    (o.side = Side.buy →
      Inverse.process_order cfg s o
        = ({ s with total_sells_filled := s.total_sells_filled + 1 },
            [⟨Side.sell, o.filled, p * (1 - cfg.percentage_spread)⟩]))
    ∧ (o.side = Side.sell →
      Inverse.process_order cfg s o
        = ({ s with
              total_buys_filled := s.total_buys_filled + 1
              match_profit := s.match_profit + cfg.amount * cfg.percentage_spread },
            [⟨Side.buy, o.filled, p * (1 + cfg.percentage_spread)⟩]))
    ∧ (o.side = Side.sell →
      BotCrypto.process_order cfg s o
        = ({ s with total_sells_filled := s.total_sells_filled + 1 },
            [⟨Side.buy, o.filled, p * (1 - cfg.percentage_spread)⟩])) := by
  obtain ⟨id, side, price, amount, filled, status⟩ := o
  cases id with
  | none => exact absurd rfl hid
  | some i =>
    subst hp
    refine ⟨?_, ?_, ?_⟩ <;> intro hs <;> subst hs <;>
      simp only [Inverse.process_order, BotCrypto.process_order] <;>
      rw [if_pos ht] <;> simp

/-- Witness for C10 at a concrete terminal buy fill and sell fill. -/
theorem claim_C10_witness :
    Inverse.process_order cfgS1 initState
        ⟨some 1, Side.buy, some 100, 1, 1, OrdStatus.filled⟩
      = ({ initState with total_sells_filled := initState.total_sells_filled + 1 },
          [⟨Side.sell, 1, 100 * (1 - cfgS1.percentage_spread)⟩]) :=
  (claim_C10 cfgS1 initState ⟨some 1, Side.buy, some 100, 1, 1, OrdStatus.filled⟩
      100 (by decide) (by decide) rfl).1 rfl

/-! ## Claim C4 — match-profit accounting -/

/-- One step of the match-profit invariant for `bot_crypto`: each call
to `process_order` preserves
`match_profit = total_buys_filled * amount * spread`. -/
lemma BotCrypto.processOrder_profit_inv_crypto (cfg : Config) (s : FillState) (o : OrderEvt)
    (h : s.match_profit = s.total_buys_filled * cfg.amount * cfg.percentage_spread) :
    (BotCrypto.process_order cfg s o).1.match_profit
      = (BotCrypto.process_order cfg s o).1.total_buys_filled
          * cfg.amount * cfg.percentage_spread := by
  obtain ⟨id, side, price, amount, filled, status⟩ := o
  cases id with
  | none => exact h
  | some i =>
    simp only [BotCrypto.process_order]
    by_cases ht : terminalFill ⟨some i, side, price, amount, filled, status⟩
    · rw [if_pos ht]
      cases side <;> cases price <;> simp [h] <;> ring
    · rw [if_neg ht]
      exact h

/-- One step of the match-profit invariant for `inverse`. -/
lemma Inverse.processOrder_profit_inv_inverse (cfg : Config) (s : FillState) (o : OrderEvt)
    (h : s.match_profit = s.total_buys_filled * cfg.amount * cfg.percentage_spread) :
    (Inverse.process_order cfg s o).1.match_profit
      = (Inverse.process_order cfg s o).1.total_buys_filled
          * cfg.amount * cfg.percentage_spread := by
  obtain ⟨id, side, price, amount, filled, status⟩ := o
  cases id with
  | none => exact h
  | some i =>
    simp only [Inverse.process_order]
    by_cases ht : terminalFill ⟨some i, side, price, amount, filled, status⟩
    · rw [if_pos ht]
      cases side <;> cases price <;> simp [h] <;> ring
    · rw [if_neg ht]
      exact h

/-- The `bot_crypto` invariant survives any event sequence. -/
lemma BotCrypto.runFills_profit_inv_crypto (cfg : Config) :
    ∀ (evs : List OrderEvt) (s : FillState),
      s.match_profit = s.total_buys_filled * cfg.amount * cfg.percentage_spread →
      (BotCrypto.runFills cfg s evs).match_profit
        = (BotCrypto.runFills cfg s evs).total_buys_filled
            * cfg.amount * cfg.percentage_spread := by
  intro evs
  induction evs with
  | nil => intro s h; exact h
  | cons o rest ih =>
    intro s h
    exact ih _ (BotCrypto.processOrder_profit_inv_crypto cfg s o h)

/-- The `inverse` invariant survives any event sequence. -/
lemma Inverse.runFills_profit_inv_inverse (cfg : Config) :
    ∀ (evs : List OrderEvt) (s : FillState),
      s.match_profit = s.total_buys_filled * cfg.amount * cfg.percentage_spread →
      (Inverse.runFills cfg s evs).match_profit
        = (Inverse.runFills cfg s evs).total_buys_filled
            * cfg.amount * cfg.percentage_spread := by
  intro evs
  induction evs with
  | nil => intro s h; exact h
  | cons o rest ih =>
    intro s h
    exact ih _ (Inverse.processOrder_profit_inv_inverse cfg s o h)

/-- Claim C4: after any sequence of processed fill events,
`match_profit = total_counter_filled * notional * spread` exactly, where
the counter-side fill counter is `total_buys_filled` in both bearish
variants (`bot_crypto` and `inverse`) — it is incremented in the same
branch as every `match_profit` update. -/
theorem claim_C4 (cfg : Config) (evs : List OrderEvt) :
    (BotCrypto.runFills cfg initState evs).match_profit
      = (BotCrypto.runFills cfg initState evs).total_buys_filled
          * cfg.amount * cfg.percentage_spread
    ∧ (Inverse.runFills cfg initState evs).match_profit
      = (Inverse.runFills cfg initState evs).total_buys_filled
          * cfg.amount * cfg.percentage_spread :=
  ⟨BotCrypto.runFills_profit_inv_crypto cfg evs initState (by simp [initState]),
    Inverse.runFills_profit_inv_inverse cfg evs initState (by simp [initState])⟩

/-! ## Claim C7 — reconnect backoff

Two loop shapes occur in the source.  The *price watcher*
(`bot/core.py` `check_prices`, lines 49-63, and its `inverse` twin):
every iteration either raises (`attempts += 1`, sleep
`min(2 ** attempts, 60)`) or completes and runs
`reconnect_attempts = 0`.  The *order watcher* (`bot/order_manager.py`
`check_orders` lines 26-40, `bot_crypto` lines 37-51, `inverse` lines
38-53) has a third path: when `watch_orders` returns a falsy batch,
`if not orders: continue` completes the iteration without exception but
skips the reset. -/

/-- The new `reconnect_attempts` value after one price-watcher
iteration (`ok = true`: the iteration completed without exception). -/
def backoffStep (attempts : ℕ) (ok : Bool) : ℕ :=
  if ok then 0 else attempts + 1

/-- The sleep performed by one price-watcher iteration (`none` on
success). -/
def stepSleep (attempts : ℕ) (ok : Bool) : Option ℕ :=
  if ok then none else some (min (2 ^ (attempts + 1)) 60)

/-- Running the price-watcher loop over a list of iteration outcomes:
final `reconnect_attempts` and the sleep performed by the last
iteration. -/
def watchLoop (evs : List Bool) : ℕ × Option ℕ :=
  evs.foldl (fun p ev => (backoffStep p.1 ev, stepSleep p.1 ev)) (0, none)

/-- One order-watcher iteration's outcome: an exception, a falsy
`watch_orders` batch (`if not orders: continue` — no exception, no
reset), or a delivered batch that is processed and reaches
`reconnect_attempts = 0`. -/
inductive OrderBatch where
  | raise
  | empty
  | delivered
deriving DecidableEq, Repr

/-- The new `reconnect_attempts` value after one order-watcher
iteration. -/
def checkOrdersStep (attempts : ℕ) (ev : OrderBatch) : ℕ :=
  match ev with
  | OrderBatch.raise => attempts + 1
  | OrderBatch.empty => attempts
  | OrderBatch.delivered => 0

/-- The sleep performed by one order-watcher iteration. -/
def checkOrdersSleep (attempts : ℕ) (ev : OrderBatch) : Option ℕ :=
  match ev with
  | OrderBatch.raise => some (min (2 ^ (attempts + 1)) 60)
  | OrderBatch.empty => none
  | OrderBatch.delivered => none

/-- Running the order-watcher loop over a list of iteration outcomes. -/
def ordersLoop (evs : List OrderBatch) : ℕ × Option ℕ :=
  evs.foldl (fun p ev => (checkOrdersStep p.1 ev, checkOrdersSleep p.1 ev)) (0, none)

/-- Folding `k` consecutive failures from attempt count `a`. -/
lemma watchLoop_replicate_false (k : ℕ) :
    ∀ (a : ℕ) (x : Option ℕ),
      (List.replicate k false).foldl
          (fun p ev => (backoffStep p.1 ev, stepSleep p.1 ev)) (a, x)
        = (a + k, if k = 0 then x else some (min (2 ^ (a + k)) 60)) := by
  induction k with
  | zero => intro a x; simp
  | succ k ih =>
    intro a x
    rw [List.replicate_succ, List.foldl_cons]
    rw [ih (backoffStep a false) (stepSleep a false)]
    simp only [backoffStep, stepSleep, if_false, Bool.false_eq_true]
    cases k with
    | zero => simp [Nat.add_comm]
    | succ m =>
      have h1 : a + 1 + (m + 1) = a + (m + 1 + 1) := by omega
      simp [h1]

/-- Folding a stretch of exceptions and empty batches adds the number
of exceptions to the attempt counter. -/
lemma ordersLoop_mix_attempts :
    ∀ (suf : List OrderBatch) (a : ℕ) (x : Option ℕ),
      (∀ e ∈ suf, e = OrderBatch.raise ∨ e = OrderBatch.empty) →
      (suf.foldl (fun p ev => (checkOrdersStep p.1 ev, checkOrdersSleep p.1 ev)) (a, x)).1
        = a + suf.count OrderBatch.raise := by
  intro suf
  induction suf with
  | nil => intro a x _; simp
  | cons e es ih =>
    intro a x hsuf
    have hes : ∀ e' ∈ es, e' = OrderBatch.raise ∨ e' = OrderBatch.empty :=
      fun e' h' => hsuf e' (List.mem_cons_of_mem _ h')
    rcases hsuf e (List.mem_cons_self e es) with rfl | rfl
    · rw [List.foldl_cons, ih _ _ hes]
      simp [checkOrdersStep, List.count_cons]
      omega
    · rw [List.foldl_cons, ih _ _ hes]
      simp [checkOrdersStep, List.count_cons]

/-- Folding a stretch of exceptions and empty batches that ends in an
exception sleeps by the total number of exceptions in the stretch. -/
lemma ordersLoop_mix_sleep :
    ∀ (suf : List OrderBatch) (a : ℕ) (x : Option ℕ),
      (∀ e ∈ suf, e = OrderBatch.raise ∨ e = OrderBatch.empty) →
      suf.getLast? = some OrderBatch.raise →
      (suf.foldl (fun p ev => (checkOrdersStep p.1 ev, checkOrdersSleep p.1 ev)) (a, x)).2
        = some (min (2 ^ (a + suf.count OrderBatch.raise)) 60) := by
  intro suf
  induction suf with
  | nil => intro a x _ hlast; simp at hlast
  | cons e es ih =>
    intro a x hsuf hlast
    cases es with
    | nil =>
      have he : e = OrderBatch.raise := by simpa using hlast
      subst he
      simp [checkOrdersStep, checkOrdersSleep, List.count_cons]
    | cons e2 es2 =>
      have hlast' : (e2 :: es2).getLast? = some OrderBatch.raise := by
        rwa [List.getLast?_cons_cons] at hlast
      have hes : ∀ e' ∈ e2 :: es2, e' = OrderBatch.raise ∨ e' = OrderBatch.empty :=
        fun e' h' => hsuf e' (List.mem_cons_of_mem _ h')
      rcases hsuf e (List.mem_cons_self _ _) with rfl | rfl
      · rw [List.foldl_cons, ih _ _ hes hlast']
        simp [checkOrdersStep, List.count_cons]
        congr 2
        omega
      · rw [List.foldl_cons, ih _ _ hes hlast']
        simp [checkOrdersStep, List.count_cons]

/-- Claim C7 is false as stated for the order watcher: after an
exception, an iteration whose `watch_orders` returns an empty batch
completes without exception yet leaves `reconnect_attempts` at 1
(`continue` skips the reset), so the single failure that follows it
sleeps `min(2^2, 60) = 4`, not the `min(2^1, 60) = 2` the claim's reset
clause requires. -/
theorem claim_C7_counterexample :
    (ordersLoop [OrderBatch.raise, OrderBatch.empty]).1 ≠ 0
    ∧ (ordersLoop [OrderBatch.raise, OrderBatch.empty, OrderBatch.raise]).2
        = some (min (2 ^ 2) 60)
    ∧ some (min (2 ^ 2) 60) ≠ some (min (2 ^ 1) 60) := by
  decide

/-- Claim C7 (amended): in the price watcher, after `k ≥ 1` consecutive
iterations ending in an exception (following a reset point) the loop
sleeps exactly `min(2^k, 60)` seconds and the counter returns to zero
at the next iteration completing without exception.  In the order
watcher, an empty `watch_orders` batch completes an iteration without
exception but skips the reset and sleeps nothing: there, any stretch of
exceptions and empty batches since a reset point that contains `k`
exceptions and ends in an exception sleeps exactly `min(2^k, 60)`, and
the counter resets to zero at the next iteration that processes a
delivered batch without exception. -/
theorem claim_C7_amended (pre : List Bool) (k : ℕ) (hk : 0 < k)
    (h0 : (watchLoop pre).1 = 0)
    (pre' suf : List OrderBatch)
    (h0' : (ordersLoop pre').1 = 0)
    (hsuf : ∀ e ∈ suf, e = OrderBatch.raise ∨ e = OrderBatch.empty)
    (hlast : suf.getLast? = some OrderBatch.raise)
    (hcount : suf.count OrderBatch.raise = k) :
    (watchLoop (pre ++ List.replicate k false)).2 = some (min (2 ^ k) 60)
    ∧ (watchLoop (pre ++ List.replicate k false ++ [true])).1 = 0
    ∧ (ordersLoop (pre' ++ suf)).2 = some (min (2 ^ k) 60)
    ∧ (ordersLoop (pre' ++ suf ++ [OrderBatch.delivered])).1 = 0
    ∧ (ordersLoop (pre' ++ suf ++ [OrderBatch.empty])).1
        = (ordersLoop (pre' ++ suf)).1
    ∧ (ordersLoop (pre' ++ suf ++ [OrderBatch.empty])).2 = none := by
  have hfold :
      watchLoop (pre ++ List.replicate k false)
        = (k, some (min (2 ^ k) 60)) := by
    unfold watchLoop
    rw [List.foldl_append]
    have : (watchLoop pre) = (0, (watchLoop pre).2) := by
      rw [← h0]
    unfold watchLoop at this
    rw [this, watchLoop_replicate_false k 0 _]
    have hk' : k ≠ 0 := by omega
    simp [hk']
  have hw2 : (watchLoop (pre ++ List.replicate k false ++ [true])).1 = 0 := by
    unfold watchLoop
    rw [List.foldl_append]
    unfold watchLoop at hfold
    rw [hfold]
    simp [backoffStep]
  have hpair : (ordersLoop pre') = (0, (ordersLoop pre').2) := by
    rw [← h0']
  have ho1 : (ordersLoop (pre' ++ suf)).2 = some (min (2 ^ k) 60) := by
    unfold ordersLoop
    rw [List.foldl_append]
    unfold ordersLoop at hpair
    rw [hpair, ordersLoop_mix_sleep suf 0 _ hsuf hlast, hcount, Nat.zero_add]
  refine ⟨by rw [hfold], hw2, ho1, ?_, ?_, ?_⟩
  · unfold ordersLoop
    rw [List.foldl_append]
    rfl
  · unfold ordersLoop
    rw [List.foldl_append]
    rfl
  · unfold ordersLoop
    rw [List.foldl_append]
    rfl

/-- Witness for C7 (amended): two straight price-watcher failures sleep
`min(2^2, 60) = 4` then reset on success; the order watcher sleeps the
same after the stretch raise, empty, raise (two exceptions), resets on
a delivered batch, and keeps its counter across an empty batch. -/
theorem claim_C7_witness :
    (watchLoop ([] ++ List.replicate 2 false)).2 = some (min (2 ^ 2) 60)
    ∧ (watchLoop ([] ++ List.replicate 2 false ++ [true])).1 = 0
    ∧ (ordersLoop ([] ++ [OrderBatch.raise, OrderBatch.empty, OrderBatch.raise])).2
        = some (min (2 ^ 2) 60)
    ∧ (ordersLoop ([] ++ [OrderBatch.raise, OrderBatch.empty, OrderBatch.raise]
        ++ [OrderBatch.delivered])).1 = 0
    ∧ (ordersLoop ([] ++ [OrderBatch.raise, OrderBatch.empty, OrderBatch.raise]
        ++ [OrderBatch.empty])).1
      = (ordersLoop ([] ++ [OrderBatch.raise, OrderBatch.empty, OrderBatch.raise])).1
    ∧ (ordersLoop ([] ++ [OrderBatch.raise, OrderBatch.empty, OrderBatch.raise]
        ++ [OrderBatch.empty])).2 = none :=
  claim_C7_amended [] 2 (by decide) rfl []
    [OrderBatch.raise, OrderBatch.empty, OrderBatch.raise]
    rfl (by decide) (by decide) (by decide)

/-! ## Claim C9 — one-shot seeding

`bot/core.py` and `inverse/core.py` `check_prices`: each iteration
first checks `if not self.all_ok and self.price > 0`, seeding the
ladder and latching `all_ok`, then awaits `watch_bids_asks` and sets
`price` to the mid.  An iteration is `some (bid, ask)` when the watch
returns and `none` when it raises (the seed check still runs first). -/

structure CoreSt where
  price : ℚ
  all_ok : Bool
deriving DecidableEq, Repr

/-- Startup state of `BotMain`: `price = 0`, `all_ok = False`. -/
def initCore : CoreSt := ⟨0, false⟩

/-- The mids observed over a run (one per successful watch). -/
def mids (evs : List (Option (ℚ × ℚ))) : List ℚ :=
  (evs.filterMap id).map (fun t => (t.1 + t.2) / 2)

namespace Bot

/-- One iteration of `bot/core.py` `check_prices` (lines 45-63): the
second component is the price passed to `place_orders` when seeding
fires (the current `self.price`). -/
def checkPricesIter (s : CoreSt) (ev : Option (ℚ × ℚ)) : CoreSt × Option ℚ :=
  let trig : Bool := !s.all_ok && decide (0 < s.price)
  let seed : Option ℚ := if trig then some s.price else none
  let ok := s.all_ok || trig
  match ev with
  | some t => (⟨(t.1 + t.2) / 2, ok⟩, seed)
  | none => (⟨s.price, ok⟩, seed)

/-- Running the `bot` price loop, collecting every seeding call. -/
def runPrices (s : CoreSt) : List (Option (ℚ × ℚ)) → CoreSt × List ℚ
  | [] => (s, [])
  | ev :: evs =>
    let r := checkPricesIter s ev
    let rest := runPrices r.1 evs
    (rest.1, r.2.toList ++ rest.2)

end Bot

namespace Inverse

/-- One iteration of `inverse/core.py` `check_prices` (lines 44-62):
identical to `bot` except that the seeding call passes the hardcoded
literal `87300`, not `self.price`. -/
def checkPricesIter (s : CoreSt) (ev : Option (ℚ × ℚ)) : CoreSt × Option ℚ :=
  let trig : Bool := !s.all_ok && decide (0 < s.price)
  let seed : Option ℚ := if trig then some 87300 else none
  let ok := s.all_ok || trig
  match ev with
  | some t => (⟨(t.1 + t.2) / 2, ok⟩, seed)
  | none => (⟨s.price, ok⟩, seed)

/-- Running the `inverse` price loop, collecting every seeding call. -/
def runPrices (s : CoreSt) : List (Option (ℚ × ℚ)) → CoreSt × List ℚ
  | [] => (s, [])
  | ev :: evs =>
    let r := checkPricesIter s ev
    let rest := runPrices r.1 evs
    (rest.1, r.2.toList ++ rest.2)

end Inverse

lemma mids_cons_some (t : ℚ × ℚ) (evs : List (Option (ℚ × ℚ))) :
    mids (some t :: evs) = (t.1 + t.2) / 2 :: mids evs := by
  simp [mids]

lemma mids_cons_none (evs : List (Option (ℚ × ℚ))) :
    mids (none :: evs) = mids evs := by
  simp [mids]

/-- Once `all_ok` is latched, the `bot` price loop never seeds again. -/
lemma Bot.runPrices_allOk_bot :
    ∀ (evs : List (Option (ℚ × ℚ))) (s : CoreSt), s.all_ok = true →
      (Bot.runPrices s evs).2 = [] := by
  intro evs
  induction evs with
  | nil => intro s _; rfl
  | cons ev rest ih =>
    intro s h
    cases ev <;> simp [Bot.runPrices, Bot.checkPricesIter, h, ih]

/-- Once `all_ok` is latched, the `inverse` price loop never seeds
again. -/
lemma Inverse.runPrices_allOk_inverse :
    ∀ (evs : List (Option (ℚ × ℚ))) (s : CoreSt), s.all_ok = true →
      (Inverse.runPrices s evs).2 = [] := by
  intro evs
  induction evs with
  | nil => intro s _; rfl
  | cons ev rest ih =>
    intro s h
    cases ev <;> simp [Inverse.runPrices, Inverse.checkPricesIter, h, ih]

/-- The `bot` price loop seeds at most once on any run. -/
lemma Bot.runPrices_len_bot :
    ∀ (evs : List (Option (ℚ × ℚ))) (s : CoreSt),
      ((Bot.runPrices s evs).2).length ≤ 1 := by
  intro evs
  induction evs with
  | nil => intro s; simp [Bot.runPrices]
  | cons ev rest ih =>
    intro s
    by_cases htrig : (!s.all_ok && decide (0 < s.price)) = true
    · have hall : ∀ pr : ℚ, (Bot.runPrices ⟨pr, true⟩ rest).2 = [] := fun pr =>
        Bot.runPrices_allOk_bot rest ⟨pr, true⟩ rfl
      cases ev <;> simp [Bot.runPrices, Bot.checkPricesIter, htrig, hall]
    · cases ev <;> simp [Bot.runPrices, Bot.checkPricesIter, htrig] <;> exact ih _

/-- The `inverse` price loop seeds at most once on any run. -/
lemma Inverse.runPrices_len_inverse :
    ∀ (evs : List (Option (ℚ × ℚ))) (s : CoreSt),
      ((Inverse.runPrices s evs).2).length ≤ 1 := by
  intro evs
  induction evs with
  | nil => intro s; simp [Inverse.runPrices]
  | cons ev rest ih =>
    intro s
    by_cases htrig : (!s.all_ok && decide (0 < s.price)) = true
    · have hall : ∀ pr : ℚ, (Inverse.runPrices ⟨pr, true⟩ rest).2 = [] := fun pr =>
        Inverse.runPrices_allOk_inverse rest ⟨pr, true⟩ rfl
      cases ev <;> simp [Inverse.runPrices, Inverse.checkPricesIter, htrig, hall]
    · cases ev <;> simp [Inverse.runPrices, Inverse.checkPricesIter, htrig] <;> exact ih _

/-- Every price the `bot` loop passes to `place_orders` is positive and
is either the starting `self.price` or a previously observed mid. -/
lemma Bot.runPrices_mem_bot :
    ∀ (evs : List (Option (ℚ × ℚ))) (s : CoreSt) (p : ℚ),
      p ∈ (Bot.runPrices s evs).2 →
      0 < p ∧ (p = s.price ∨ p ∈ mids evs) := by
  intro evs
  induction evs with
  | nil => intro s p hp; simp [Bot.runPrices] at hp
  | cons ev rest ih =>
    intro s p hp
    by_cases htrig : (!s.all_ok && decide (0 < s.price)) = true
    · have hpos : 0 < s.price := by
        have := (Bool.and_eq_true _ _).mp htrig
        exact of_decide_eq_true this.2
      cases ev with
      | some t =>
        simp [Bot.runPrices, Bot.checkPricesIter, htrig] at hp
        rcases hp with h1 | h2
        · exact ⟨h1 ▸ hpos, Or.inl h1⟩
        · obtain ⟨hpp, hm⟩ := ih _ p h2
          refine ⟨hpp, Or.inr ?_⟩
          rw [mids_cons_some]
          rcases hm with h | h
          · exact h ▸ List.mem_cons_self _ _
          · exact List.mem_cons_of_mem _ h
      | none =>
        simp [Bot.runPrices, Bot.checkPricesIter, htrig] at hp
        rcases hp with h1 | h2
        · exact ⟨h1 ▸ hpos, Or.inl h1⟩
        · obtain ⟨hpp, hm⟩ := ih _ p h2
          rw [mids_cons_none]
          exact ⟨hpp, hm⟩
    · cases ev with
      | some t =>
        simp [Bot.runPrices, Bot.checkPricesIter, htrig] at hp
        obtain ⟨hpp, hm⟩ := ih _ p hp
        refine ⟨hpp, Or.inr ?_⟩
        rw [mids_cons_some]
        rcases hm with h | h
        · exact h ▸ List.mem_cons_self _ _
        · exact List.mem_cons_of_mem _ h
      | none =>
        simp [Bot.runPrices, Bot.checkPricesIter, htrig] at hp
        obtain ⟨hpp, hm⟩ := ih _ p hp
        rw [mids_cons_none]
        exact ⟨hpp, hm⟩

/-- Every price the `inverse` loop passes to `place_orders` is the
hardcoded literal 87300. -/
lemma Inverse.runPrices_mem_inverse :
    ∀ (evs : List (Option (ℚ × ℚ))) (s : CoreSt) (p : ℚ),
      p ∈ (Inverse.runPrices s evs).2 → p = 87300 := by
  intro evs
  induction evs with
  | nil => intro s p hp; simp [Inverse.runPrices] at hp
  | cons ev rest ih =>
    intro s p hp
    by_cases htrig : (!s.all_ok && decide (0 < s.price)) = true
    · cases ev with
      | some t =>
        simp [Inverse.runPrices, Inverse.checkPricesIter, htrig] at hp
        rcases hp with h1 | h2
        · exact h1
        · exact ih _ p h2
      | none =>
        simp [Inverse.runPrices, Inverse.checkPricesIter, htrig] at hp
        rcases hp with h1 | h2
        · exact h1
        · exact ih _ p h2
    · cases ev <;> simp [Inverse.runPrices, Inverse.checkPricesIter, htrig] at hp <;>
        exact ih _ p hp

unseal Rat.add Rat.mul Rat.inv in
/-- Claim C9 is false as stated for the `inverse` variant: after a tick
making the mid 100, the seeding call fires but passes the hardcoded
87300, not the observed mid. -/
theorem claim_C9_counterexample :
    (Inverse.runPrices initCore [some (99, 101), some (99, 101)]).2 = [87300]
    ∧ (87300 : ℚ) ∉ mids [some (99, 101), some (99, 101)] := by
  refine ⟨by decide, by decide⟩

/-- Claim C9 (amended): each price-loop run seeds the ladder at most
once, only after the observed mid first becomes positive; in the `bot`
variant the price passed is the observed mid, while the `inverse`
variant passes the hardcoded constant 87300. -/
theorem claim_C9_amended (evs : List (Option (ℚ × ℚ))) :
    ((Bot.runPrices initCore evs).2).length ≤ 1
    ∧ (∀ p ∈ (Bot.runPrices initCore evs).2, 0 < p ∧ p ∈ mids evs)
    ∧ ((Inverse.runPrices initCore evs).2).length ≤ 1
    ∧ (∀ p ∈ (Inverse.runPrices initCore evs).2, p = 87300) := by
  refine ⟨Bot.runPrices_len_bot evs initCore, ?_, Inverse.runPrices_len_inverse evs initCore,
    fun p hp => Inverse.runPrices_mem_inverse evs initCore p hp⟩
  intro p hp
  obtain ⟨hpp, hm⟩ := Bot.runPrices_mem_bot evs initCore p hp
  rcases hm with h | h
  · rw [h] at hpp
    exact absurd hpp (by simp [initCore])
  · exact ⟨hpp, h⟩

unseal Rat.add Rat.mul Rat.inv in
/-- Witness for C9 (amended): on a run with two good ticks at mid 100,
the single `bot` seed is 100, which is positive and an observed mid. -/
theorem claim_C9_witness :
    0 < (100 : ℚ) ∧ (100 : ℚ) ∈ mids [some (99, 101), some (99, 101)] :=
  (claim_C9_amended [some (99, 101), some (99, 101)]).2.1 100 (by decide)

/-! ## The venue book and the `bot_crypto` rebalance pass

`bot_crypto/order_manager.py` `rebalance` (lines 135-235).  The venue
is modelled by its list of resting orders: `fetch_open_orders` returns
the list, `cancel_order(id)` removes the (unique) order with that id,
and `create_order` appends an order carrying the next fresh id.  All
gateway calls succeed; a zero price aborts a posting loop (the caught
`ZeroDivisionError` in the per-phase `try`), hence the `takeWhile`.
Python's float literal `1.1` is modelled as `11/10`: for integer order
counts the two comparisons agree (`1.1` rounds up in binary, and no
integer lies in the sliver between `n * 11/10` and `n * 1.1₂`).
`sorted` is modelled by insertion sort; Python's sort is stable, but no
property below depends on the order of equal prices. -/

/-- An order resting on the venue. -/
structure OpenOrder where
  id : ℕ
  side : Side
  price : ℚ
  amount : ℚ
deriving DecidableEq, Repr

abbrev Book := List OpenOrder

/-- `o['side'] == 'buy'`. -/
def isBuy (o : OpenOrder) : Bool := decide (o.side = Side.buy)

/-- `o['side'] == 'sell'`. -/
def isSell (o : OpenOrder) : Bool := decide (o.side = Side.sell)

/-- Cancelling a set of order ids on the venue.  Ids are unique on a
real venue, so removing them all at once coincides with the source's
sequential `cancel_order` loop. -/
def cancelIds (book : Book) (ids : List ℕ) : Book :=
  book.filter (fun o => decide (o.id ∉ ids))

/-- The orders created by one posting loop: one per price, venue ids
assigned consecutively from `fresh`. -/
def mkPosts (fresh : ℕ) (side : Side) (amtOf : ℚ → ℚ) : List ℚ → List OpenOrder
  | [] => []
  | p :: ps => ⟨fresh, side, p, amtOf p⟩ :: mkPosts (fresh + 1) side amtOf ps

/-- Python `max` of a price list (only ever used nonempty). -/
def listMax : List ℚ → ℚ
  | [] => 0
  | x :: xs => xs.foldl max x

/-- Python `min` of a price list (only ever used nonempty). -/
def listMin : List ℚ → ℚ
  | [] => 0
  | x :: xs => xs.foldl min x

instance : DecidableRel (fun a b : OpenOrder => a.price ≤ b.price) :=
  fun a b => inferInstanceAs (Decidable (a.price ≤ b.price))

instance : DecidableRel (fun a b : OpenOrder => b.price ≤ a.price) :=
  fun a b => inferInstanceAs (Decidable (b.price ≤ a.price))

/-- `sorted(orders, key=lambda o: o['price'])`. -/
def sortAsc (l : Book) : Book := l.insertionSort (fun a b => a.price ≤ b.price)

/-- `sorted(orders, key=lambda o: o['price'], reverse=True)`. -/
def sortDesc (l : Book) : Book := l.insertionSort (fun a b => b.price ≤ a.price)

/-- Output of one rebalance phase: the venue book afterwards, the next
fresh id, and the orders the phase canceled and posted. -/
structure PhaseOut where
  book : Book
  fresh : ℕ
  canceled : List OpenOrder
  posted : List OpenOrder
deriving DecidableEq, Repr

/-- The full trace of one rebalance pass. -/
structure RebalResult where
  book : Book
  fresh : ℕ
  phase1Canceled : List OpenOrder
  phase1Posted : List OpenOrder
  phase2Canceled : List OpenOrder
  phase2Posted : List OpenOrder
  phase3Canceled : List OpenOrder
  phase3Posted : List OpenOrder
deriving DecidableEq, Repr

namespace BotCrypto

/-- Phase 1 of `rebalance` (lines 150-175): too many buys — cancel the
`diff` lowest-priced buys and post `diff` sell rungs above the highest
sell of the snapshot (reference 0 when no sells exist, whose zero
prices abort the posting loop by `ZeroDivisionError` in the amount
computation). -/
def phase1 (cfg : Config) (book : Book) (fresh : ℕ) : PhaseOut :=
  let buy_orders := book.filter isBuy
  let sell_orders := book.filter isSell
  let num_buys := buy_orders.length
  let num_sells := sell_orders.length
  let max_diff := max 1 (cfg.num_orders / 5)
  if (num_buys : ℚ) > (num_sells : ℚ) * (11/10) then
    let diff := min (num_buys - num_sells) max_diff
    let toCancel := (sortAsc buy_orders).take diff
    let ref_price : ℚ := if sell_orders.isEmpty then 0
      else listMax (sell_orders.map (fun o => o.price)) * (1 + cfg.percentage_spread)
    let prices := (calculate_order_prices_sell ref_price cfg.percentage_spread diff
        cfg.price_format).takeWhile (fun p => decide (p ≠ 0))
    let posted := mkPosts fresh Side.sell
      (fun p => format_quantity (cfg.amount * (1 - cfg.percentage_spread) / p) cfg.amount_format)
      prices
    ⟨cancelIds book (toCancel.map (fun o => o.id)) ++ posted, fresh + posted.length,
      toCancel, posted⟩
  else ⟨book, fresh, [], []⟩

/-- Phase 2 of `rebalance` (lines 177-202): too many sells and
`net_pos > num_buys` — cancel the `diff` highest-priced sells and post
`diff` buy rungs below the lowest buy of the snapshot.  All counts come
from the pass-entry snapshot (`entry`), as in the source; the cancels
apply to the current book. -/
def phase2 (cfg : Config) (st : FillState) (entry : Book) (book : Book) (fresh : ℕ) :
    PhaseOut :=
  let net_pos : ℤ := (st.total_sells_filled : ℤ) - (st.total_buys_filled : ℤ)
  let buy_orders := entry.filter isBuy
  let sell_orders := entry.filter isSell
  let num_buys := buy_orders.length
  let num_sells := sell_orders.length
  let max_diff := max 1 (cfg.num_orders / 5)
  if (num_sells : ℚ) > (num_buys : ℚ) * (11/10) ∧ net_pos > (num_buys : ℤ) then
    let diff := min (min (num_sells - num_buys) (net_pos - (num_buys : ℤ)).toNat) max_diff
    let toCancel := (sortDesc sell_orders).take diff
    let ref_price : ℚ := if buy_orders.isEmpty then 0
      else listMin (buy_orders.map (fun o => o.price)) * (1 - cfg.percentage_spread)
    let prices := (calculate_order_prices_buy ref_price cfg.percentage_spread diff
        cfg.price_format).takeWhile (fun p => decide (p ≠ 0))
    let posted := mkPosts fresh Side.buy
      (fun p => format_quantity (cfg.amount / p) cfg.amount_format) prices
    ⟨cancelIds book (toCancel.map (fun o => o.id)) ++ posted, fresh + posted.length,
      toCancel, posted⟩
  else ⟨book, fresh, [], []⟩

/-- Phase 3 of `rebalance` (lines 204-233): after the settle delay,
refetch (`book`) and adjust the total.  A shortfall is topped up with
sell rungs whose reference comes from the *pass-entry* `sell_orders`
variable (the source never refreshed it); an excess cancels the
highest-priced orders. -/
def phase3 (cfg : Config) (entry : Book) (book : Book) (fresh : ℕ) : PhaseOut :=
  let sell_orders := entry.filter isSell
  if book.length < cfg.num_orders then
    let faltan := cfg.num_orders - book.length
    let ref_price : ℚ := if sell_orders.isEmpty then 0
      else listMax (sell_orders.map (fun o => o.price)) * (1 + cfg.percentage_spread)
    let prices := (calculate_order_prices_sell ref_price cfg.percentage_spread faltan
        cfg.price_format).takeWhile (fun p => decide (p ≠ 0))
    let posted := mkPosts fresh Side.sell
      (fun p => format_quantity (cfg.amount * (1 - cfg.percentage_spread) / p) cfg.amount_format)
      prices
    ⟨book ++ posted, fresh + posted.length, [], posted⟩
  else if cfg.num_orders < book.length then
    let extra := book.length - cfg.num_orders
    let toCancel := (sortAsc book).drop (book.length - extra)
    ⟨cancelIds book (toCancel.map (fun o => o.id)), fresh, toCancel, []⟩
  else ⟨book, fresh, [], []⟩

/-- One full `rebalance` pass: phase 1, phase 2, settle delay and
refetch, phase 3. -/
def rebalance (cfg : Config) (st : FillState) (book : Book) (fresh : ℕ) : RebalResult :=
  let p1 := phase1 cfg book fresh
  let p2 := phase2 cfg st book p1.book p1.fresh
  let p3 := phase3 cfg book p2.book p2.fresh
  ⟨p3.book, p3.fresh, p1.canceled, p1.posted, p2.canceled, p2.posted,
    p3.canceled, p3.posted⟩

end BotCrypto

/-- `num_buys` of a snapshot: `len([o for o in book if o['side'] == 'buy'])`. -/
def nBuys (l : Book) : ℕ := (l.filter isBuy).length

/-- `num_sells` of a snapshot. -/
def nSells (l : Book) : ℕ := (l.filter isSell).length

/-- Venue-side sanity: resting orders carry distinct ids, all below the
next id the venue will assign. -/
def WfBook (book : Book) (fresh : ℕ) : Prop :=
  (book.map (fun o => o.id)).Nodup ∧ ∀ o ∈ book, o.id < fresh

instance (book : Book) (fresh : ℕ) : Decidable (WfBook book fresh) := by
  unfold WfBook; infer_instance

lemma mkPosts_length (sd : Side) (a : ℚ → ℚ) :
    ∀ (ps : List ℚ) (f : ℕ), (mkPosts f sd a ps).length = ps.length := by
  intro ps
  induction ps with
  | nil => intro f; rfl
  | cons p ps ih => intro f; simp [mkPosts, ih]

lemma mkPosts_side (sd : Side) (a : ℚ → ℚ) :
    ∀ (ps : List ℚ) (f : ℕ) (o : OpenOrder), o ∈ mkPosts f sd a ps → o.side = sd := by
  intro ps
  induction ps with
  | nil => intro f o ho; simp [mkPosts] at ho
  | cons p ps ih =>
    intro f o ho
    rcases List.mem_cons.mp ho with h | h
    · rw [h]
    · exact ih _ o h

lemma mkPosts_ids (sd : Side) (a : ℚ → ℚ) :
    ∀ (ps : List ℚ) (f : ℕ),
      (mkPosts f sd a ps).map (fun o => o.id) = List.range' f ps.length := by
  intro ps
  induction ps with
  | nil => intro f; rfl
  | cons p ps ih => intro f; simp [mkPosts, ih, List.range'_succ]

lemma mkPosts_sell_filter_isBuy (a : ℚ → ℚ) :
    ∀ (ps : List ℚ) (f : ℕ), (mkPosts f Side.sell a ps).filter isBuy = [] := by
  intro ps
  induction ps with
  | nil => intro f; rfl
  | cons p ps ih => intro f; simp [mkPosts, List.filter_cons, isBuy, ih]

lemma mkPosts_buy_filter_isBuy (a : ℚ → ℚ) :
    ∀ (ps : List ℚ) (f : ℕ),
      ((mkPosts f Side.buy a ps).filter isBuy).length = ps.length := by
  intro ps
  induction ps with
  | nil => intro f; rfl
  | cons p ps ih => intro f; simp [mkPosts, List.filter_cons, isBuy, ih]

lemma cancelIds_sublist (b : Book) (ids : List ℕ) : List.Sublist (cancelIds b ids) b :=
  List.filter_sublist b

lemma cancelIds_nil (b : Book) : cancelIds b [] = b := by
  simp [cancelIds]

lemma cancelIds_nBuys_le (b : Book) (ids : List ℕ) :
    nBuys (cancelIds b ids) ≤ nBuys b :=
  ((cancelIds_sublist b ids).filter isBuy).length_le

lemma wf_mono {b : Book} {f f' : ℕ} (h : WfBook b f) (hle : f ≤ f') : WfBook b f' :=
  ⟨h.1, fun o ho => lt_of_lt_of_le (h.2 o ho) hle⟩

lemma wf_cancelIds {b : Book} {f : ℕ} (h : WfBook b f) (ids : List ℕ) :
    WfBook (cancelIds b ids) f := by
  refine ⟨?_, fun o ho => h.2 o (List.mem_of_mem_filter ho)⟩
  exact h.1.sublist (List.Sublist.map _ (cancelIds_sublist b ids))

/-- On a list of distinct ids, filtering to a deduplicated subset keeps
exactly that subset's length. -/
lemma filter_mem_length {l s : List ℕ} (hl : l.Nodup) (hs : s.Nodup)
    (hsub : ∀ i ∈ s, i ∈ l) :
    (l.filter (fun i => decide (i ∈ s))).length = s.length := by
  have hperm : List.Perm (l.filter (fun i => decide (i ∈ s))) s := by
    apply (List.perm_ext_iff_of_nodup (hl.sublist (List.filter_sublist l)) hs).mpr
    intro a
    simp only [List.mem_filter, decide_eq_true_eq]
    exact ⟨fun h => h.2, fun h => ⟨hsub a h, h⟩⟩
  exact hperm.length_eq

lemma countP_not_mem (ids : List ℕ) : ∀ l : List ℕ,
    l.countP (fun i => decide (i ∉ ids))
      = l.length - l.countP (fun i => decide (i ∈ ids)) := by
  intro l
  simp only [decide_not]
  induction l with
  | nil => rfl
  | cons x xs ih =>
    have hle : xs.countP (fun i => decide (i ∈ ids)) ≤ xs.length :=
      List.countP_le_length _
    by_cases hx : x ∈ ids <;> simp [List.countP_cons, hx] <;> omega

/-- Cancelling a deduplicated set of resting ids removes exactly that
many orders. -/
lemma length_cancelIds {b : Book} {ids : List ℕ}
    (hb : (b.map (fun o => o.id)).Nodup) (hids : ids.Nodup)
    (hsub : ∀ i ∈ ids, i ∈ b.map (fun o => o.id)) :
    (cancelIds b ids).length = b.length - ids.length := by
  have hcount : ((b.map (fun o => o.id)).countP (fun i => decide (i ∈ ids)))
      = ids.length := by
    rw [List.countP_eq_length_filter]
    exact filter_mem_length hb hids hsub
  have hmap : (cancelIds b ids).length
      = (b.map (fun o => o.id)).countP (fun i => decide (¬ i ∈ ids)) := by
    unfold cancelIds
    rw [List.countP_map]
    rw [← List.countP_eq_length_filter]
    rfl
  rw [hmap, countP_not_mem ids, hcount, List.length_map]

lemma sortAsc_perm (l : Book) : List.Perm (sortAsc l) l :=
  List.perm_insertionSort _ l

lemma sortDesc_perm (l : Book) : List.Perm (sortDesc l) l :=
  List.perm_insertionSort _ l

lemma le_foldl_max : ∀ (l : List ℚ) (a : ℚ), a ≤ l.foldl max a := by
  intro l
  induction l with
  | nil => intro a; simp
  | cons x xs ih => intro a; exact le_trans (le_max_left a x) (ih (max a x))

lemma foldl_max_ge_mem : ∀ (l : List ℚ) (a x : ℚ), x ∈ l → x ≤ l.foldl max a := by
  intro l
  induction l with
  | nil => intro a x hx; simp at hx
  | cons y ys ih =>
    intro a x hx
    rcases List.mem_cons.mp hx with rfl | h
    · exact le_trans (le_max_right a x) (le_foldl_max ys (max a x))
    · exact ih _ x h

/-- Python `max` dominates every member of a nonempty list. -/
lemma listMax_ge_mem (l : List ℚ) (x : ℚ) (hx : x ∈ l) : x ≤ listMax l := by
  cases l with
  | nil => simp at hx
  | cons y ys =>
    simp only [listMax]
    rcases List.mem_cons.mp hx with rfl | h
    · exact le_foldl_max ys x
    · exact foldl_max_ge_mem ys y x h

/-- Rounding never drops a value at least one below one. -/
lemma roundHalfEven_ge_floor (x : ℚ) : ⌊x⌋ ≤ roundHalfEven x := by
  simp only [roundHalfEven]
  split
  · exact le_refl _
  · split
    · omega
    · split
      · exact le_refl _
      · omega

/-- A value whose scaled form exceeds half a tick rounds to a positive
price (at exactly half a tick, ties-to-even rounds to zero and the
posting loop would abort). -/
lemma pyRound_pos {x : ℚ} {d : ℕ} (hx : 1/2 < x * 10 ^ d) : 0 < pyRound x d := by
  unfold pyRound
  have hpow : (0:ℚ) < 10 ^ d := by positivity
  apply div_pos ?_ hpow
  have h1 : (1:ℤ) ≤ roundHalfEven (x * 10 ^ d) := by
    have hy0 : (0:ℚ) ≤ x * 10 ^ d := by linarith
    have hf0 : 0 ≤ ⌊x * 10 ^ d⌋ := Int.floor_nonneg.mpr hy0
    by_cases hf : 1 ≤ ⌊x * 10 ^ d⌋
    · exact le_trans hf (roundHalfEven_ge_floor _)
    · have hfz : ⌊x * 10 ^ d⌋ = 0 := by omega
      simp only [roundHalfEven, hfz, Int.cast_zero, sub_zero]
      rw [if_neg (not_lt.mpr (le_of_lt hx)), if_pos hx]
      omega
  have h2 : (0:ℤ) < roundHalfEven (x * 10 ^ d) := by omega
  exact_mod_cast h2

lemma calcSell_length (p s : ℚ) (n d : ℕ) :
    (calculate_order_prices_sell p s n d).length = n := by
  simp [calculate_order_prices_sell]

lemma calcBuy_length (p s : ℚ) (n d : ℕ) :
    (calculate_order_prices_buy p s n d).length = n := by
  simp [calculate_order_prices_buy]

lemma calcSell_pos {r s : ℚ} {d : ℕ} (hr : 1/2 < r * 10 ^ d) (hs : 0 ≤ s) (n : ℕ) :
    ∀ q ∈ calculate_order_prices_sell r s n d, 0 < q := by
  intro q hq
  simp only [calculate_order_prices_sell, List.mem_map, List.mem_range] at hq
  obtain ⟨i, _, rfl⟩ := hq
  apply pyRound_pos
  have hpow : 1 ≤ (1 + s) ^ i := one_le_pow₀ (by linarith)
  have hd : (0:ℚ) < 10 ^ d := by positivity
  have hr0 : 0 < r := by nlinarith
  nlinarith [mul_nonneg (le_of_lt (mul_pos hr0 hd)) (sub_nonneg.mpr hpow)]

/-- A posting loop over positive prices never aborts. -/
lemma takeWhile_of_pos {l : List ℚ} (h : ∀ q ∈ l, 0 < q) :
    l.takeWhile (fun p => decide (p ≠ 0)) = l := by
  apply List.takeWhile_eq_self_iff.mpr
  intro q hq
  have := h q hq
  simp only [decide_eq_true_eq]
  intro h0
  rw [h0] at this
  linarith

lemma wf_append_mkPosts {b : Book} {f : ℕ} (h : WfBook b f) (sd : Side) (a : ℚ → ℚ)
    (ps : List ℚ) :
    WfBook (b ++ mkPosts f sd a ps) (f + ps.length) := by
  constructor
  · rw [List.map_append, mkPosts_ids]
    rw [List.nodup_append]
    refine ⟨h.1, List.nodup_range' _ _ _ (by decide), ?_⟩
    intro x hx hx'
    rcases List.mem_map.mp hx with ⟨o, ho, rfl⟩
    have h1 : o.id < f := h.2 o ho
    have h2 : f ≤ o.id := (List.mem_range'_1.mp hx').1
    omega
  · intro o ho
    rcases List.mem_append.mp ho with hb | hp
    · exact lt_of_lt_of_le (h.2 o hb) (Nat.le_add_right _ _)
    · have : o.id ∈ (mkPosts f sd a ps).map (fun o => o.id) := List.mem_map_of_mem _ hp
      rw [mkPosts_ids] at this
      have := List.mem_range'_1.mp this
      omega

namespace BotCrypto

lemma phase1_not_fired {cfg : Config} {book : Book} {fresh : ℕ}
    (h : ¬ ((((book.filter isBuy).length : ℚ))
        > ((book.filter isSell).length : ℚ) * (11/10))) :
    phase1 cfg book fresh = ⟨book, fresh, [], []⟩ := by
  simp only [phase1]
  rw [if_neg h]

lemma phase1_nBuys_le (cfg : Config) (book : Book) (fresh : ℕ) :
    nBuys (phase1 cfg book fresh).book ≤ nBuys book := by
  simp only [phase1]
  split
  · unfold nBuys
    simp only [List.filter_append, List.length_append, mkPosts_sell_filter_isBuy,
      List.length_nil, Nat.add_zero]
    exact cancelIds_nBuys_le book _
  · exact le_refl _

lemma phase1_wf {cfg : Config} {book : Book} {fresh : ℕ} (h : WfBook book fresh) :
    WfBook (phase1 cfg book fresh).book (phase1 cfg book fresh).fresh := by
  simp only [phase1]
  split
  · rw [mkPosts_length]
    exact wf_append_mkPosts (wf_cancelIds h _) Side.sell _ _
  · exact h

lemma phase2_not_fired {cfg : Config} {st : FillState} {entry book : Book} {fresh : ℕ}
    (h : ¬ ((((entry.filter isSell).length : ℚ))
          > ((entry.filter isBuy).length : ℚ) * (11/10)
        ∧ (st.total_sells_filled : ℤ) - (st.total_buys_filled : ℤ)
          > ((entry.filter isBuy).length : ℤ))) :
    phase2 cfg st entry book fresh = ⟨book, fresh, [], []⟩ := by
  simp only [phase2]
  rw [if_neg h]

lemma phase2_posted_le (cfg : Config) (st : FillState) (entry book : Book) (fresh : ℕ) :
    (phase2 cfg st entry book fresh).posted.length
      ≤ if ((nSells entry : ℚ) > (nBuys entry : ℚ) * (11/10)
            ∧ (st.total_sells_filled : ℤ) - (st.total_buys_filled : ℤ)
              > (nBuys entry : ℤ))
        then min (min (nSells entry - nBuys entry)
              ((st.total_sells_filled : ℤ) - (st.total_buys_filled : ℤ)
                - (nBuys entry : ℤ)).toNat)
            (max 1 (cfg.num_orders / 5))
        else 0 := by
  unfold nBuys nSells
  simp only [phase2]
  split
  case isTrue h =>
    dsimp only
    rw [mkPosts_length]
    exact le_trans (List.takeWhile_sublist _).length_le
      (le_of_eq (calcBuy_length _ _ _ _))
  case isFalse h =>
    simp

lemma phase2_nBuys_le (cfg : Config) (st : FillState) (entry book : Book) (fresh : ℕ) :
    nBuys (phase2 cfg st entry book fresh).book
      ≤ nBuys book + (phase2 cfg st entry book fresh).posted.length := by
  simp only [phase2]
  split
  · unfold nBuys
    simp only [List.filter_append, List.length_append]
    rw [mkPosts_buy_filter_isBuy, mkPosts_length]
    apply Nat.add_le_add_right
    exact cancelIds_nBuys_le book _
  · simp [nBuys]

lemma phase2_wf {cfg : Config} {st : FillState} {entry book : Book} {fresh : ℕ}
    (h : WfBook book fresh) :
    WfBook (phase2 cfg st entry book fresh).book (phase2 cfg st entry book fresh).fresh := by
  simp only [phase2]
  split
  · rw [mkPosts_length]
    exact wf_append_mkPosts (wf_cancelIds h _) Side.buy _ _
  · exact h

lemma phase3_nBuys_le (cfg : Config) (entry book : Book) (fresh : ℕ) :
    nBuys (phase3 cfg entry book fresh).book ≤ nBuys book := by
  simp only [phase3]
  split
  · unfold nBuys
    simp only [List.filter_append, List.length_append, mkPosts_sell_filter_isBuy,
      List.length_nil, Nat.add_zero]
    exact le_refl _
  · split
    · exact cancelIds_nBuys_le book _
    · exact le_refl _

lemma phase3_posted_side (cfg : Config) (entry book : Book) (fresh : ℕ) :
    ∀ o ∈ (phase3 cfg entry book fresh).posted, o.side = Side.sell := by
  simp only [phase3]
  split
  · exact fun o ho => mkPosts_side Side.sell _ _ _ o ho
  · split
    · intro o ho; simp at ho
    · intro o ho; simp at ho

/-- Phase 3 restores `total_open == num_orders`, provided the pass-entry
snapshot holds a sell whose price exceeds half a tick at
`price_format` decimals — otherwise the rungs of the (possibly
degenerate) reference round to zero and the `ZeroDivisionError` in the
posting loop aborts the top-up. -/
lemma phase3_total (cfg : Config) (entry book : Book) (fresh : ℕ)
    (hwf : WfBook book fresh)
    (hs : ∃ o ∈ entry, o.side = Side.sell ∧ 1/2 < o.price * 10 ^ cfg.price_format)
    (hspread : 0 ≤ cfg.percentage_spread) :
    (phase3 cfg entry book fresh).book.length = cfg.num_orders := by
  obtain ⟨o, ho, hside, hp⟩ := hs
  have homem : o ∈ entry.filter isSell :=
    List.mem_filter.mpr ⟨ho, by simp [isSell, hside]⟩
  have hne : entry.filter isSell ≠ [] := List.ne_nil_of_mem homem
  have href : 1/2 < (if (entry.filter isSell).isEmpty then (0:ℚ)
      else listMax ((entry.filter isSell).map (fun o => o.price))
        * (1 + cfg.percentage_spread)) * 10 ^ cfg.price_format := by
    rw [if_neg (by simpa using hne)]
    have hM : o.price ≤ listMax ((entry.filter isSell).map (fun o => o.price)) :=
      listMax_ge_mem _ _ (List.mem_map_of_mem _ homem)
    have hd : (0:ℚ) < 10 ^ cfg.price_format := by positivity
    have h1 : 1/2 < listMax ((entry.filter isSell).map (fun o => o.price))
        * 10 ^ cfg.price_format :=
      lt_of_lt_of_le hp (mul_le_mul_of_nonneg_right hM hd.le)
    nlinarith
  simp only [phase3]
  split
  case isTrue hlt =>
    have hall := calcSell_pos href hspread (cfg.num_orders - book.length)
    rw [List.length_append, mkPosts_length, takeWhile_of_pos hall, calcSell_length]
    omega
  case isFalse hge =>
    split
    case isTrue hgt =>
      have hperm := sortAsc_perm book
      have hlen_sort : (sortAsc book).length = book.length := hperm.length_eq
      have hsub : List.Sublist
          ((sortAsc book).drop (book.length - (book.length - cfg.num_orders)))
          (sortAsc book) := List.drop_sublist _ _
      have hnodup_sort : ((sortAsc book).map (fun o => o.id)).Nodup :=
        ((hperm.map (fun o => o.id)).nodup_iff).mpr hwf.1
      have hids : (((sortAsc book).drop
            (book.length - (book.length - cfg.num_orders))).map (fun o => o.id)).Nodup :=
        hnodup_sort.sublist (List.Sublist.map _ hsub)
      have hsubset : ∀ i ∈ ((sortAsc book).drop
            (book.length - (book.length - cfg.num_orders))).map (fun o => o.id),
          i ∈ book.map (fun o => o.id) := by
        intro i hi
        rcases List.mem_map.mp hi with ⟨o, ho, rfl⟩
        exact List.mem_map_of_mem _ (hperm.subset (hsub.subset ho))
      rw [length_cancelIds hwf.1 hids hsubset, List.length_map, List.length_drop,
        hlen_sort]
      omega
    case isFalse heq =>
      dsimp only
      omega

end BotCrypto

/-! ## Claim C1 — counter cap and Phase B -/

/-- Concrete C1 state: three matched pairs each also redelivered once as
a duplicate terminal event leave `net = 0` with three counter-side buys
still resting. -/
def c1Book : Book :=
  [⟨0, Side.buy, 97, 1⟩, ⟨1, Side.buy, 98, 1⟩, ⟨2, Side.buy, 99, 1⟩,
   ⟨3, Side.sell, 101, 1⟩, ⟨4, Side.sell, 102, 1⟩, ⟨5, Side.sell, 103, 1⟩]

/-- Config for the C1 counterexample pass. -/
def c1Cfg : Config :=
  { percentage_spread := 1/100, amount := 1000, num_orders := 6,
    price_format := 2, amount_format := 2, contract_size := 1 }

unseal Rat.add Rat.mul Rat.inv Rat.sub in
/-- Claim C1 is false as stated: a pass over a balanced book (3 buys, 3
sells) with `net = 0` fires no phase and cancels nothing, so it exits
with 3 open counter-side (buy) orders, exceeding `max(net, 0) = 0` —
the Rebalancer never cancels counters that already exceed the cap. -/
theorem claim_C1_counterexample :
    ¬ ((nBuys (BotCrypto.rebalance c1Cfg ⟨3, 3, 0⟩ c1Book 10).book : ℤ)
        ≤ max (((3:ℕ) : ℤ) - ((3:ℕ) : ℤ)) 0) := by
  decide

/-- Claim C1 (amended): a `bot_crypto` Rebalancer pass never *raises*
the number of open counter-side (buy) orders above `max(net, 0)`: at
pass exit `num_counter_open ≤ max(num_counter_open at entry, max(net, 0))`.
Phase B fires only when `num_primary_open > num_counter_open * 1.1` and
`net > num_counter_open`, and then posts at most
`min(num_primary_open - num_counter_open, net - num_counter_open,
max(1, num_orders / 5))` counter orders (and none otherwise). -/
theorem claim_C1_amended (cfg : Config) (st : FillState) (book : Book) (fresh : ℕ) :
    ((nBuys (BotCrypto.rebalance cfg st book fresh).book : ℤ)
      ≤ max (nBuys book : ℤ)
          (max ((st.total_sells_filled : ℤ) - (st.total_buys_filled : ℤ)) 0))
    ∧ ((BotCrypto.rebalance cfg st book fresh).phase2Posted.length
      ≤ if ((nSells book : ℚ) > (nBuys book : ℚ) * (11/10)
            ∧ (st.total_sells_filled : ℤ) - (st.total_buys_filled : ℤ)
              > (nBuys book : ℤ))
        then min (min (nSells book - nBuys book)
              ((st.total_sells_filled : ℤ) - (st.total_buys_filled : ℤ)
                - (nBuys book : ℤ)).toNat)
            (max 1 (cfg.num_orders / 5))
        else 0) := by
  simp only [BotCrypto.rebalance]
  have hB := BotCrypto.phase2_posted_le cfg st book
    (BotCrypto.phase1 cfg book fresh).book (BotCrypto.phase1 cfg book fresh).fresh
  refine ⟨?_, hB⟩
  have h3 := BotCrypto.phase3_nBuys_le cfg book
    (BotCrypto.phase2 cfg st book (BotCrypto.phase1 cfg book fresh).book
      (BotCrypto.phase1 cfg book fresh).fresh).book
    (BotCrypto.phase2 cfg st book (BotCrypto.phase1 cfg book fresh).book
      (BotCrypto.phase1 cfg book fresh).fresh).fresh
  have h2 := BotCrypto.phase2_nBuys_le cfg st book
    (BotCrypto.phase1 cfg book fresh).book (BotCrypto.phase1 cfg book fresh).fresh
  have h1 := BotCrypto.phase1_nBuys_le cfg book fresh
  by_cases hc : ((nSells book : ℚ) > (nBuys book : ℚ) * (11/10)
      ∧ (st.total_sells_filled : ℤ) - (st.total_buys_filled : ℤ) > (nBuys book : ℤ))
  · have hnot1 : ¬ ((((book.filter isBuy).length : ℚ))
        > ((book.filter isSell).length : ℚ) * (11/10)) := by
      intro hgt
      have hb0 : (0:ℚ) ≤ ((book.filter isBuy).length : ℚ) := Nat.cast_nonneg _
      have hs0 : (0:ℚ) ≤ ((book.filter isSell).length : ℚ) := Nat.cast_nonneg _
      have hc1 : ((book.filter isSell).length : ℚ)
          > ((book.filter isBuy).length : ℚ) * (11/10) := hc.1
      nlinarith
    have hp1 : BotCrypto.phase1 cfg book fresh = ⟨book, fresh, [], []⟩ :=
      BotCrypto.phase1_not_fired hnot1
    rw [hp1] at h2 h3 ⊢
    rw [hp1] at hB
    rw [if_pos hc] at hB
    dsimp only at h2 h3 hB ⊢
    have hmin : min (min (nSells book - nBuys book)
          ((st.total_sells_filled : ℤ) - (st.total_buys_filled : ℤ)
            - (nBuys book : ℤ)).toNat)
          (max 1 (cfg.num_orders / 5))
        ≤ ((st.total_sells_filled : ℤ) - (st.total_buys_filled : ℤ)
            - (nBuys book : ℤ)).toNat :=
      le_trans (min_le_left _ _) (min_le_right _ _)
    have hnet := hc.2
    omega
  · rw [if_neg hc] at hB
    omega

/-! ## Claim C6 — Phase C total adjustment -/

/-- Concrete C6 book: one sell at 100 and three buys below. -/
def c6Book : Book :=
  [⟨0, Side.sell, 100, 1⟩, ⟨1, Side.buy, 97, 1⟩, ⟨2, Side.buy, 98, 1⟩,
   ⟨3, Side.buy, 99, 1⟩]

/-- Config for the C6 counterexample pass (10% spread for round
numbers). -/
def c6Cfg : Config :=
  { percentage_spread := 1/10, amount := 1000, num_orders := 10,
    price_format := 2, amount_format := 2, contract_size := 1 }

unseal Rat.add Rat.mul Rat.inv Rat.sub Rat.ofScientific in
/-- Claim C6 is false as stated: in this pass, Phase A posts sells at
110 and 121, and Phase C then tops up from the *stale* pass-entry
reference, posting a rung at 110 — below the existing primary at 121
rather than cascading away from the outermost existing primary-side
order. -/
theorem claim_C6_counterexample :
    ∃ o ∈ (BotCrypto.rebalance c6Cfg ⟨0, 0, 0⟩ c6Book 4).phase3Posted,
      ∃ e ∈ (BotCrypto.rebalance c6Cfg ⟨0, 0, 0⟩ c6Book 4).book,
        e.side = Side.sell
        ∧ e.id ∉ ((BotCrypto.rebalance c6Cfg ⟨0, 0, 0⟩ c6Book 4).phase3Posted.map
            (fun o => o.id))
        ∧ o.price < e.price := by
  decide

/-- Claim C6 (amended): in Phase C, a shortfall is posted entirely as
primary-side (sell) rungs, but they cascade from the highest sell of
the *pass-entry* snapshot, not the refetched one.  On a venue book with
distinct resting ids (below the next id the venue assigns), with a
nonnegative configured spread, and provided the entry snapshot holds a
sell order whose price exceeds half a tick at `price_decimals` (a
reference whose rungs round to zero aborts the top-up via
`ZeroDivisionError`), pass exit has `total_open == num_orders`, an
excess being canceled from the highest-priced end. -/
theorem claim_C6_amended (cfg : Config) (st : FillState) (book : Book) (fresh : ℕ)
    (hwf : WfBook book fresh)
    (hs : ∃ o ∈ book, o.side = Side.sell ∧ 1/2 < o.price * 10 ^ cfg.price_format)
    (hspread : 0 ≤ cfg.percentage_spread) :
    (BotCrypto.rebalance cfg st book fresh).book.length = cfg.num_orders
    ∧ ∀ o ∈ (BotCrypto.rebalance cfg st book fresh).phase3Posted,
        o.side = Side.sell := by
  simp only [BotCrypto.rebalance]
  have h1 := @BotCrypto.phase1_wf cfg book fresh hwf
  have h2 := @BotCrypto.phase2_wf cfg st book _ _ h1
  exact ⟨BotCrypto.phase3_total cfg book _ _ h2 hs hspread,
    BotCrypto.phase3_posted_side cfg book _ _⟩

unseal Rat.add Rat.mul Rat.inv Rat.sub in
/-- Witness for C6 (amended): a one-sell book topped up to the 2-rung
target. -/
theorem claim_C6_witness :
    (BotCrypto.rebalance
        { percentage_spread := 1/10, amount := 1000, num_orders := 2,
          price_format := 2, amount_format := 2, contract_size := 1 }
        ⟨0, 0, 0⟩ [⟨0, Side.sell, 100, 1⟩] 1).book.length = 2
    ∧ ∀ o ∈ (BotCrypto.rebalance
        { percentage_spread := 1/10, amount := 1000, num_orders := 2,
          price_format := 2, amount_format := 2, contract_size := 1 }
        ⟨0, 0, 0⟩ [⟨0, Side.sell, 100, 1⟩] 1).phase3Posted, o.side = Side.sell :=
  claim_C6_amended _ _ _ _ (by decide) (by decide) (by norm_num)

end DinamicGrid
